import Mathlib

/-
Verification of the cargo-consolidate dependency-merge core.

This file gives a shallow embedding of the dependency-merge algorithm of
src/dependencies.rs and of the document-patching / write loop of
src/main.rs, and proves (or refutes) the specification claims about them.

Modelling conventions:
- Rust methods that mutate self are modelled as functions returning the
  new value of self.
- A Rust panic (unreachable!, expect, unimplemented!) is modelled as the
  none case of an Option result, or as an explicit error constructor of
  an Except result, so that fatal failure is observable.
- BTreeMap values are modelled as association lists (the maps are only
  ever iterated and point-queried; key order does not matter for any
  claim proved here).
- cargo_toml::DependencyDetail has many optional attribute fields; the
  model keeps the version field (the only one the code inspects) plus a
  representative sample of non-version attributes (features, optional,
  defaultFeatures, path, git) so that frame conditions on non-version
  attributes are expressible.
-/

/-- Model of cargo_toml::DependencyDetail: an optional version constraint
plus non-version attributes (a representative subset of the crate's fields). -/
structure DependencyDetail where
  version : Option String
  features : List String
  optional : Bool
  defaultFeatures : Option Bool
  path : Option String
  git : Option String
  deriving DecidableEq, Repr

/-- Model of cargo_toml::Dependency: a tagged union of a bare constraint
string, a detailed spec, and a workspace-inherited marker. -/
inductive Dependency where
  | simple (version : String)
  | detailed (details : DependencyDetail)
  | inherited
  deriving DecidableEq, Repr

/-- A DependencyDetail with every field empty, mirroring
DependencyDetail::default() in the tests of src/dependencies.rs. -/
def default_detail : DependencyDetail :=
  { version := none, features := [], optional := false,
    defaultFeatures := none, path := none, git := none }

/-- Model of DependencyExt::merge_simple (src/dependencies.rs, lines 22-38).
Mutation of self becomes returning the new self; the unreachable! on the
Inherited arm becomes none. -/
def merge_simple : Dependency → String → Option Dependency
  | .simple v, version => some (.simple (v ++ ", " ++ version))
  | .detailed d, version =>
    match d.version with
    | some v => some (.detailed { d with version := some (v ++ ", " ++ version) })
    | none => some (.detailed d)
  | .inherited, _ => none

/-- Model of DependencyExt::merge_detailed (src/dependencies.rs, lines 40-67).
On the Simple arm the code appends the incoming detail version to self's
version, swaps that string into details.version, and replaces self with
Dependency::Detailed(details); when details.version is None the if-let body
is skipped and self still becomes Detailed(details), so self's version
string is dropped. The unreachable! on the Inherited arm becomes none. -/
def merge_detailed : Dependency → DependencyDetail → Option Dependency
  | .simple version, details =>
    match details.version with
    | some dv => some (.detailed { details with version := some (version ++ ", " ++ dv) })
    | none => some (.detailed details)
  | .detailed d, details =>
    match d.version, details.version with
    | none, some v => some (.detailed { d with version := some v })
    | some l, some r => some (.detailed { d with version := some (l ++ ", " ++ r) })
    | _, _ => some (.detailed d)
  | .inherited, _ => none

/-- Operator of a semver comparator, as in the semver crate. -/
inductive Op where
  | exact
  | greater
  | greaterEq
  | less
  | lessEq
  | tilde
  | caret
  | wildcard
  deriving DecidableEq, Repr

/-- Model of semver::Comparator: an operator plus version components and an
optional pre-release tag. Equality is component-wise, as in the crate. -/
structure Comparator where
  op : Op
  major : Nat
  minor : Option Nat
  patch : Option Nat
  pre : String
  deriving DecidableEq, Repr

/-- Model of semver::VersionReq: a collection of comparator terms. The
rendered string has one comma-separated term per comparator. -/
structure VersionReq where
  comparators : List Comparator
  deriving DecidableEq, Repr

/-- Model of VersionReqExt::simplify_version_req (src/dependencies.rs,
lines 131-141): the comparator list is collected into a HashSet and back,
keeping exactly the distinct comparators. The source's HashSet leaves the
order of the result unspecified; the model fixes the first-occurrence
order via List.dedup. Every property proved below (cardinality, retention,
freedom from duplicates) is independent of that order. -/
def simplify_version_req (req : VersionReq) : VersionReq :=
  { comparators := req.comparators.dedup }

/-- Error outcomes of the unifier: the expect on an empty dependency vector
(src/dependencies.rs, lines 97-99) and the unreachable! on an Inherited
operand during the fold (lines 111-118). -/
inductive UnifyError where
  | emptyList
  | inheritedMerge
  deriving DecidableEq, Repr

/-- One step of the fold in unify_dependencies (src/dependencies.rs, lines
101-119): an Inherited accumulator or incoming element is fatal; otherwise
a Simple incoming element dispatches to merge_simple and a Detailed one to
merge_detailed. -/
def fold_step (acc : Dependency) (dep : Dependency) : Option Dependency :=
  match acc, dep with
  | .inherited, _ => none
  | _, .inherited => none
  | a, .simple v => merge_simple a v
  | a, .detailed det => merge_detailed a det

/-- The fold of unify_dependencies over the remaining elements (after the
accumulator has been popped), processed front to back. -/
def unify_fold (acc : Dependency) : List Dependency → Except UnifyError Dependency
  | [] => .ok acc
  | dep :: rest =>
    match fold_step acc dep with
    | some acc2 => unify_fold acc2 rest
    | none => .error .inheritedMerge

/-- Unification of one name's dependency list (src/dependencies.rs, lines
96-120): pop the last element as the accumulator (Vec::pop; the expect on
an empty vector becomes the emptyList error), then fold the remaining
elements front to back. -/
def unify_one (deps : List Dependency) : Except UnifyError Dependency :=
  match deps.getLast? with
  | none => .error .emptyList
  | some acc => unify_fold acc deps.dropLast

/-- Model of unify_dependencies (src/dependencies.rs, lines 92-124): each
name's list is unified in turn; the first fatal condition aborts the run. -/
def unify_dependencies :
    List (String × List Dependency) → Except UnifyError (List (String × Dependency))
  | [] => .ok []
  | (name, deps) :: rest =>
    match unify_one deps with
    | .error e => .error e
    | .ok d =>
      match unify_dependencies rest with
      | .error e => .error e
      | .ok r => .ok ((name, d) :: r)

/-- Point query on an association-list map (stands for BTreeMap lookup and
toml_edit table key lookup). -/
def lookup_map {α : Type} : List (String × α) → String → Option α
  | [], _ => none
  | (k, v) :: rest, name => if k = name then some v else lookup_map rest name

/-- The key list of an association-list map. -/
def keysOf {α : Type} (l : List (String × α)) : List String :=
  l.map Prod.fst

/-- Model of a toml_edit item as the patch loop of src/main.rs
distinguishes them: a bare string value, a table-like value with named
sub-fields, or anything else (neither is_str nor is_table_like). -/
inductive TomlItem where
  | str (s : String)
  | table (fields : List (String × TomlItem))
  | other

/-- Fatal conditions of the patch loop (src/main.rs, lines 119-152): the
expect "version should exist" on a Detailed spec without a version, and the
unimplemented! on an entry shape that is neither string nor table-like. -/
inductive PatchError where
  | missingVersion
  | unsupportedFormat
  deriving DecidableEq, Repr

/-- Replace the version sub-field of a table-like value with a string,
leaving every other sub-field unchanged (toml_edit table keys are unique,
so replacing every field named version replaces exactly the one field the
code obtains with get_mut). -/
def set_version : List (String × TomlItem) → String → List (String × TomlItem)
  | [], _ => []
  | (k, it) :: rest, v =>
    if k = "version" then (k, TomlItem.str v) :: set_version rest v
    else (k, it) :: set_version rest v

/-- Model of the per-entry patch in App::consolidate (src/main.rs, lines
119-152). An entry whose name is not in the unified table is untouched.
For a name in the table: a bare string value is replaced by the unified
constraint string (fatal if the unified spec is Detailed without a
version; untouched if Inherited); a table-like value has only its version
sub-field replaced, and is untouched when that sub-field is absent; any
other shape is fatal. -/
def patch_entry (unified : List (String × Dependency)) (name : String)
    (item : TomlItem) : Except PatchError TomlItem :=
  match lookup_map unified name with
  | none => .ok item
  | some dep =>
    match item with
    | .str s =>
      match dep with
      | .simple version => .ok (.str version)
      | .detailed details =>
        match details.version with
        | some v => .ok (.str v)
        | none => .error .missingVersion
      | .inherited => .ok (.str s)
    | .table fields =>
      match lookup_map fields "version" with
      | some _ =>
        match dep with
        | .simple version => .ok (.table (set_version fields version))
        | .detailed details =>
          match details.version with
          | some v => .ok (.table (set_version fields v))
          | none => .error .missingVersion
        | .inherited => .ok (.table fields)
      | none => .ok (.table fields)
    | .other => .error .unsupportedFormat

/-- Patch every entry of a member's dependency table in order; the first
fatal condition aborts the run (src/main.rs, lines 119-153). -/
def patch_dependencies (unified : List (String × Dependency)) :
    List (String × TomlItem) → Except PatchError (List (String × TomlItem))
  | [] => .ok []
  | (n, it) :: rest =>
    match patch_entry unified n it with
    | .error e => .error e
    | .ok it2 =>
      match patch_dependencies unified rest with
      | .error e => .error e
      | .ok r => .ok ((n, it2) :: r)

/-- Append a dependency to the list held for a name, or start a new list if
the name is absent (the get_mut push / insert pair of src/main.rs, lines
75-82). -/
def add_dep (m : List (String × List Dependency)) (name : String)
    (dep : Dependency) : List (String × List Dependency) :=
  match m with
  | [] => [(name, [dep])]
  | (n, ds) :: rest =>
    if n = name then (n, ds ++ [dep]) :: rest else (n, ds) :: add_dep rest name dep

/-- Collect one member's dependency entries into the accumulation map,
skipping names already present in the root workspace map (src/main.rs,
lines 67-84). -/
def collect_member (root : List String) (acc : List (String × List Dependency))
    (member : List (String × Dependency)) : List (String × List Dependency) :=
  member.foldl
    (fun acc2 nd => if nd.1 ∈ root then acc2 else add_dep acc2 nd.1 nd.2) acc

/-- Model of the dependency-collection loop of App::consolidate
(src/main.rs, lines 66-84): root is the key set of the workspace's shared
dependency map, members are the subproject dependency tables in iteration
order. -/
def collect_new_dependencies (root : List String)
    (members : List (List (String × Dependency))) :
    List (String × List Dependency) :=
  members.foldl (collect_member root) []

/-- Contents of a manifest file on disk, as far as the write loop observes
them: a parse yields the [dependencies] table, or parsing fails (this also
stands for the two expects on a missing or ill-shaped dependencies key,
src/main.rs, lines 112-117). -/
inductive FileContent where
  | doc (deps : List (String × TomlItem))
  | malformed

/-- Fatal conditions of the member write loop of App::consolidate
(src/main.rs, lines 109-156). -/
inductive RunError where
  | fileMissing
  | parseFail
  | patchFail (e : PatchError)
  deriving DecidableEq, Repr

/-- Overwrite (or create) a file in the modelled file system. -/
def write_fs (fs : List (String × FileContent)) (p : String) (c : FileContent) :
    List (String × FileContent) :=
  match fs with
  | [] => [(p, c)]
  | (q, c0) :: rest =>
    if q = p then (q, c) :: rest else (q, c0) :: write_fs rest p c

/-- Model of the member write loop of App::consolidate (src/main.rs, lines
109-156): for each member path in order, read the file, parse it, patch
its dependency table, and write the result back to disk at the end of that
same iteration. The returned file system is the on-disk state when the
loop stops, so the effect of a mid-run failure on already-processed
members is observable. -/
def process_members (unified : List (String × Dependency))
    (fs : List (String × FileContent)) :
    List String → List (String × FileContent) × Option RunError
  | [] => (fs, none)
  | p :: rest =>
    match lookup_map fs p with
    | none => (fs, some .fileMissing)
    | some .malformed => (fs, some .parseFail)
    | some (.doc deps) =>
      match patch_dependencies unified deps with
      | .error e => (fs, some (.patchFail e))
      | .ok deps2 => process_members unified (write_fs fs p (.doc deps2)) rest

/-- A two-member file system in which the second member fails to parse;
the first member's lib entry is subject to patching. -/
def fsBefore : List (String × FileContent) :=
  [("m1", .doc [("b", TomlItem.str "1.0")]), ("m2", .malformed)]

/-- The unified table used against fsBefore. -/
def unifiedB : List (String × Dependency) :=
  [("b", Dependency.simple "1.0, 2.0")]

/-- The on-disk state after the run on fsBefore aborts: the first member
has already been rewritten. -/
def fsAfter : List (String × FileContent) :=
  [("m1", .doc [("b", TomlItem.str "1.0, 2.0")]), ("m2", .malformed)]

/-- Whether a unifier run ended in one of its fatal conditions. -/
def failed {α : Type} : Except UnifyError α → Bool
  | .error _ => true
  | .ok _ => false

/-- Helper: merge_simple on a Detailed spec whose version field is absent
returns the spec unchanged. -/
theorem merge_simple_detailed_none (d : DependencyDetail) (v : String)
    (h : d.version = none) : merge_simple (.detailed d) v = some (.detailed d) := by
  simp [merge_simple, h]

/-- Helper: merge_simple on a Detailed spec with a version appends to it. -/
theorem merge_simple_detailed_some (d : DependencyDetail) (v ver : String)
    (h : d.version = some ver) :
    merge_simple (.detailed d) v =
      some (.detailed { d with version := some (ver ++ ", " ++ v) }) := by
  simp [merge_simple, h]

/-- Helper: merge_detailed on a Simple spec with an incoming version
concatenates self's constraint first. -/
theorem merge_detailed_simple_some (s : String) (det : DependencyDetail)
    (dv : String) (h : det.version = some dv) :
    merge_detailed (.simple s) det =
      some (.detailed { det with version := some (s ++ ", " ++ dv) }) := by
  simp [merge_detailed, h]

/-- Helper: merge_detailed on a Simple spec with a version-less incoming
detail replaces self wholesale with that detail, dropping self's
constraint. -/
theorem merge_detailed_simple_none (s : String) (det : DependencyDetail)
    (h : det.version = none) :
    merge_detailed (.simple s) det = some (.detailed det) := by
  simp [merge_detailed, h]

/-- Helper: merge_detailed on a Detailed spec without a version adopts the
incoming version field and changes nothing else. -/
theorem merge_detailed_detailed_none (d det : DependencyDetail)
    (h : d.version = none) :
    merge_detailed (.detailed d) det =
      some (.detailed { d with version := det.version }) := by
  obtain ⟨dv, f, o, df, p, g⟩ := d
  simp only at h
  subst h
  cases hdet : det.version <;> simp [merge_detailed, hdet]

/-- Helper: merge_detailed on two Detailed specs with versions concatenates
self's version first and changes nothing else. -/
theorem merge_detailed_detailed_some_some (d det : DependencyDetail)
    (l r : String) (hl : d.version = some l) (hr : det.version = some r) :
    merge_detailed (.detailed d) det =
      some (.detailed { d with version := some (l ++ ", " ++ r) }) := by
  simp [merge_detailed, hl, hr]

/-- Helper: merge_detailed on a Detailed spec with a version and a
version-less incoming detail is a no-op. -/
theorem merge_detailed_detailed_some_none (d det : DependencyDetail)
    (l : String) (hl : d.version = some l) (hr : det.version = none) :
    merge_detailed (.detailed d) det = some (.detailed d) := by
  simp [merge_detailed, hl, hr]

/-- C5: merge_simple on a Simple spec appends the incoming constraint after
self's with the literal ", " separator; on a Detailed spec it appends to
the version field exactly when that field is present, and is a silent no-op
(self unchanged) when the field is absent. -/
theorem merge_simple_spec :
    (∀ s v, merge_simple (.simple s) v = some (.simple (s ++ ", " ++ v))) ∧
    (∀ d v ver, d.version = some ver →
      merge_simple (.detailed d) v =
        some (.detailed { d with version := some (ver ++ ", " ++ v) })) ∧
    (∀ d v, d.version = none → merge_simple (.detailed d) v = some (.detailed d)) :=
  ⟨fun _ _ => rfl, fun d v ver h => merge_simple_detailed_some d v ver h,
    fun d v h => merge_simple_detailed_none d v h⟩

/-- C5 witness: merge_simple on Simple "1.0.0" with "1.9.0" gives
Simple "1.0.0, 1.9.0", and on Detailed with version "1.0.0" appends the
same way. -/
theorem merge_simple_spec_witness :
    merge_simple (Dependency.simple "1.0.0") "1.9.0" =
      some (Dependency.simple "1.0.0, 1.9.0") ∧
    ({ default_detail with version := some "1.0.0" } : DependencyDetail).version =
      some "1.0.0" ∧
    merge_simple (Dependency.detailed { default_detail with version := some "1.0.0" })
      "1.9.0" =
      some (Dependency.detailed { default_detail with version := some "1.0.0, 1.9.0" }) :=
  ⟨merge_simple_spec.1 "1.0.0" "1.9.0", rfl,
    merge_simple_spec.2.1 _ "1.9.0" "1.0.0" rfl⟩

/-- C6: merge_detailed on a Detailed self with no version adopts the
incoming version; with versions on both sides it concatenates self's then
the incoming's with ", "; and in every case the result is self with at
most the version field changed, so self's non-version attributes are kept
and the incoming detail's non-version attributes are discarded. -/
theorem merge_detailed_on_detailed_spec :
    (∀ d det, d.version = none →
      merge_detailed (.detailed d) det =
        some (.detailed { d with version := det.version })) ∧
    (∀ d det l r, d.version = some l → det.version = some r →
      merge_detailed (.detailed d) det =
        some (.detailed { d with version := some (l ++ ", " ++ r) })) ∧
    (∀ d det, ∃ v, merge_detailed (.detailed d) det =
      some (.detailed { d with version := v })) := by
  refine ⟨fun d det h => merge_detailed_detailed_none d det h,
    fun d det l r hl hr => merge_detailed_detailed_some_some d det l r hl hr,
    fun d det => ?_⟩
  cases hl : d.version with
  | none =>
    exact ⟨det.version, merge_detailed_detailed_none d det hl⟩
  | some l =>
    cases hr : det.version with
    | none =>
      refine ⟨some l, ?_⟩
      rw [merge_detailed_detailed_some_none d det l hl hr]
      obtain ⟨dv, f, o, df, p, g⟩ := d
      simp only at hl
      subst hl
      rfl
    | some r =>
      exact ⟨some (l ++ ", " ++ r), merge_detailed_detailed_some_some d det l r hl hr⟩

/-- C6 witness: merging Detailed with version "1.0.0" into a Detailed spec
with version "1.9.0" and different non-version attributes keeps the first
spec's attributes and concatenates the versions. -/
theorem merge_detailed_on_detailed_spec_witness :
    ({ default_detail with version := some "1.0.0", features := ["x"] } :
        DependencyDetail).version = some "1.0.0" ∧
    ({ default_detail with version := some "1.9.0", features := ["y"] } :
        DependencyDetail).version = some "1.9.0" ∧
    merge_detailed
        (Dependency.detailed { default_detail with version := some "1.0.0", features := ["x"] })
        { default_detail with version := some "1.9.0", features := ["y"] } =
      some (Dependency.detailed
        { default_detail with version := some "1.0.0, 1.9.0", features := ["x"] }) :=
  ⟨rfl, rfl, merge_detailed_on_detailed_spec.2.1 _ _ "1.0.0" "1.9.0" rfl rfl⟩

/-- C1 counterexample: merge_simple on a Detailed spec whose version field
is absent returns the operand unchanged, so the incoming constraint
"1.9.0" appears nowhere in the result (the result has no version string at
all), refuting the claim that no version constraint of the inputs is ever
discarded. -/
theorem merge_simple_detailed_no_version_drops_constraint :
    merge_simple (Dependency.detailed default_detail) "1.9.0" =
      some (Dependency.detailed default_detail) ∧
    default_detail.version = none :=
  ⟨rfl, rfl⟩

/-- C1 amended: merging concatenates rather than discards version
constraints in every case in which both operands carry one, but exactly
two cases discard a constraint: merge_simple on a Detailed spec without a
version drops the incoming constraint (self is returned unchanged), and
merge_detailed on a Simple spec whose incoming detail has no version drops
self's constraint (the result is the incoming detail, whose version is
absent). The conjuncts characterise every non-Inherited case of both
merge operations. -/
theorem merge_constraint_characterization :
    (∀ s v, merge_simple (.simple s) v = some (.simple (s ++ ", " ++ v))) ∧
    (∀ d v ver, d.version = some ver →
      merge_simple (.detailed d) v =
        some (.detailed { d with version := some (ver ++ ", " ++ v) })) ∧
    (∀ d v, d.version = none → merge_simple (.detailed d) v = some (.detailed d)) ∧
    (∀ s det dv, det.version = some dv →
      merge_detailed (.simple s) det =
        some (.detailed { det with version := some (s ++ ", " ++ dv) })) ∧
    (∀ s det, det.version = none →
      merge_detailed (.simple s) det = some (.detailed det)) ∧
    (∀ d det, d.version = none →
      merge_detailed (.detailed d) det =
        some (.detailed { d with version := det.version })) ∧
    (∀ d det l r, d.version = some l → det.version = some r →
      merge_detailed (.detailed d) det =
        some (.detailed { d with version := some (l ++ ", " ++ r) })) ∧
    (∀ d det l, d.version = some l → det.version = none →
      merge_detailed (.detailed d) det = some (.detailed d)) :=
  ⟨fun _ _ => rfl,
    fun d v ver h => merge_simple_detailed_some d v ver h,
    fun d v h => merge_simple_detailed_none d v h,
    fun s det dv h => merge_detailed_simple_some s det dv h,
    fun s det h => merge_detailed_simple_none s det h,
    fun d det h => merge_detailed_detailed_none d det h,
    fun d det l r hl hr => merge_detailed_detailed_some_some d det l r hl hr,
    fun d det l hl hr => merge_detailed_detailed_some_none d det l hl hr⟩

/-- C1 witness: in the both-versions-present cases the constraints are
concatenated, and in the Detailed-without-version case of merge_simple the
incoming constraint "2.0.0" is dropped. -/
theorem merge_constraint_characterization_witness :
    merge_simple (Dependency.simple "0.3") "2.0.0" =
      some (Dependency.simple "0.3, 2.0.0") ∧
    ({ default_detail with features := ["z"] } : DependencyDetail).version = none ∧
    merge_simple (Dependency.detailed { default_detail with features := ["z"] }) "2.0.0" =
      some (Dependency.detailed { default_detail with features := ["z"] }) :=
  ⟨merge_constraint_characterization.1 "0.3" "2.0.0", rfl,
    merge_constraint_characterization.2.2.1 _ "2.0.0" rfl⟩

/-- C3 counterexample: merge_detailed on Simple "1.0.0" with an incoming
detail whose version is absent yields a Detailed result whose version
field is none — self's version "1.0.0" is dropped, not kept, refuting the
claim that the result's version is a conversion of self's version. -/
theorem merge_detailed_on_simple_none_drops_self_version :
    merge_detailed (Dependency.simple "1.0.0") default_detail =
      some (Dependency.detailed default_detail) ∧
    default_detail.version = none :=
  ⟨rfl, rfl⟩

/-- C3 amended: merge_detailed on a Simple self always yields a Detailed
outcome whose non-version attributes come from the incoming detail; when
the incoming detail has a version the result's version is self's version,
", ", then the incoming version; when the incoming detail has no version
the result is the incoming detail itself, whose version field is absent —
self's version is discarded, not kept. -/
theorem merge_detailed_on_simple_spec :
    (∀ s det dv, det.version = some dv →
      merge_detailed (.simple s) det =
        some (.detailed { det with version := some (s ++ ", " ++ dv) })) ∧
    (∀ s det, det.version = none →
      merge_detailed (.simple s) det = some (.detailed det)) :=
  ⟨fun s det dv h => merge_detailed_simple_some s det dv h,
    fun s det h => merge_detailed_simple_none s det h⟩

/-- C3 witness: merge_detailed on Simple "1.0.0" with a detail carrying
version "1.9.0" and features ["x"] yields Detailed with version
"1.0.0, 1.9.0" and the incoming features. -/
theorem merge_detailed_on_simple_spec_witness :
    ({ default_detail with version := some "1.9.0", features := ["x"] } :
        DependencyDetail).version = some "1.9.0" ∧
    merge_detailed (Dependency.simple "1.0.0")
        { default_detail with version := some "1.9.0", features := ["x"] } =
      some (Dependency.detailed
        { default_detail with version := some "1.0.0, 1.9.0", features := ["x"] }) :=
  ⟨rfl, merge_detailed_on_simple_spec.1 "1.0.0" _ "1.9.0" rfl⟩

/-- Helper: a fold step with an Inherited accumulator is fatal. -/
theorem fold_step_inherited_left (dep : Dependency) :
    fold_step Dependency.inherited dep = none := by
  cases dep <;> rfl

/-- Helper: a fold step with an Inherited incoming element is fatal. -/
theorem fold_step_inherited_right (acc : Dependency) :
    fold_step acc Dependency.inherited = none := by
  cases acc <;> rfl

/-- Helper: the unifier fold is fatal as soon as any folded element is
Inherited, whatever the accumulator. -/
theorem unify_fold_inherited_mem :
    ∀ (l : List Dependency) (acc : Dependency), Dependency.inherited ∈ l →
      unify_fold acc l = .error UnifyError.inheritedMerge := by
  intro l
  induction l with
  | nil => intro acc h; cases h
  | cons d rest ih =>
    intro acc h
    rcases List.mem_cons.mp h with h1 | h2
    · subst h1
      simp [unify_fold, fold_step_inherited_right]
    · cases hs : fold_step acc d with
      | none => simp [unify_fold, hs]
      | some acc2 => simp [unify_fold, hs]; exact ih acc2 h2

/-- Helper: the unifier fold never reports the empty-vector failure. -/
theorem unify_fold_ne_emptyList :
    ∀ (l : List Dependency) (acc : Dependency),
      unify_fold acc l ≠ .error UnifyError.emptyList := by
  intro l
  induction l with
  | nil => intro acc h; cases h
  | cons d rest ih =>
    intro acc
    cases hs : fold_step acc d with
    | none => simp [unify_fold, hs]
    | some acc2 => simp [unify_fold, hs]; exact ih acc2

/-- Helper: unifying a list decomposed as front part plus last element pops
the last element as the accumulator and folds the front part. -/
theorem unify_one_concat (L : List Dependency) (b : Dependency) :
    unify_one (L ++ [b]) = unify_fold b L := by
  simp [unify_one, List.getLast?_concat, List.dropLast_concat]

/-- C4 counterexample: a name whose dependency list is the singleton
[Inherited] is unified successfully — the Inherited element is popped as
the accumulator, the fold has nothing left to do, and the entry is
inserted — refuting the claim that such a name never yields a successfully
unified entry. -/
theorem unify_singleton_inherited_succeeds :
    unify_dependencies [("a", [Dependency.inherited])] =
      .ok [("a", Dependency.inherited)] := rfl

/-- C4 amended: every merge operation whose self operand is Inherited
fails fatally (merge_simple, merge_detailed), and the unifier fold over a
name's spec list fails fatally whenever the list contains an Inherited
element together with at least one other element; but a list that is
exactly the singleton [Inherited] performs no merge at all and yields the
Inherited element as a successfully unified entry. -/
theorem merge_inherited_fatal :
    (∀ v, merge_simple Dependency.inherited v = none) ∧
    (∀ det, merge_detailed Dependency.inherited det = none) ∧
    (∀ deps, Dependency.inherited ∈ deps → 2 ≤ deps.length →
      unify_one deps = .error UnifyError.inheritedMerge) ∧
    unify_one [Dependency.inherited] = .ok Dependency.inherited := by
  refine ⟨fun _ => rfl, fun _ => rfl, ?_, rfl⟩
  intro deps hmem hlen
  rcases List.eq_nil_or_concat deps with h | ⟨L, b, h⟩
  · subst h; cases hmem
  · subst h
    rw [List.concat_eq_append] at hmem hlen ⊢
    rw [unify_one_concat]
    rcases List.mem_append.mp hmem with hL | hb
    · exact unify_fold_inherited_mem L b hL
    · have hb2 : b = Dependency.inherited := (List.mem_singleton.mp hb).symm
      subst hb2
      cases L with
      | nil => simp at hlen
      | cons x L2 =>
        simp [unify_fold, fold_step_inherited_left]

/-- C4 witness: a two-element list containing an Inherited element fails
with the inherited-merge fatal condition. -/
theorem merge_inherited_fatal_witness :
    Dependency.inherited ∈ [Dependency.simple "1.0", Dependency.inherited] ∧
    2 ≤ ([Dependency.simple "1.0", Dependency.inherited] : List Dependency).length ∧
    unify_one [Dependency.simple "1.0", Dependency.inherited] =
      .error UnifyError.inheritedMerge :=
  ⟨by decide, by decide, merge_inherited_fatal.2.2.1 _ (by decide) (by decide)⟩

/-- C7: simplify_version_req deduplicates comparator terms by value
equality — the simplified requirement has exactly one comparator per
distinct comparator of the input (its term count equals the cardinality of
the input's comparator set), every input comparator is retained, and the
result is duplicate-free. -/
theorem simplify_version_req_dedup_spec (req : VersionReq) :
    (simplify_version_req req).comparators.length = req.comparators.toFinset.card ∧
    (∀ c, c ∈ req.comparators → c ∈ (simplify_version_req req).comparators) ∧
    (simplify_version_req req).comparators.Nodup :=
  ⟨(List.card_toFinset req.comparators).symm,
    fun _ h => List.mem_dedup.mpr h,
    List.nodup_dedup req.comparators⟩

/-- C7 witness: a requirement holding the comparator for "1.0.0" twice
collapses to that single comparator. -/
theorem simplify_version_req_dedup_spec_witness :
    (simplify_version_req
        ⟨[⟨Op.caret, 1, some 0, some 0, ""⟩, ⟨Op.caret, 1, some 0, some 0, ""⟩]⟩).comparators =
      [⟨Op.caret, 1, some 0, some 0, ""⟩] ∧
    (simplify_version_req
        ⟨[⟨Op.caret, 1, some 0, some 0, ""⟩, ⟨Op.caret, 1, some 0, some 0, ""⟩]⟩).comparators.length =
      ([⟨Op.caret, 1, some 0, some 0, ""⟩, ⟨Op.caret, 1, some 0, some 0, ""⟩] :
        List Comparator).toFinset.card ∧
    (⟨Op.caret, 1, some 0, some 0, ""⟩ : Comparator) ∈
      (simplify_version_req
        ⟨[⟨Op.caret, 1, some 0, some 0, ""⟩, ⟨Op.caret, 1, some 0, some 0, ""⟩]⟩).comparators :=
  ⟨by decide,
    (simplify_version_req_dedup_spec _).1,
    (simplify_version_req_dedup_spec _).2.1 _ (by decide)⟩

/-- C10: the unifier is total only under the precondition that every name
maps to a non-empty spec list — whenever some name maps to the empty list
the run fails fatally rather than skipping the name or producing a table,
and under the non-emptiness precondition the empty-vector failure branch
is unreachable (the run never reports it). -/
theorem unify_dependencies_empty_list_spec :
    (∀ (tree : List (String × List Dependency)) (name : String),
      (name, ([] : List Dependency)) ∈ tree →
      failed (unify_dependencies tree) = true) ∧
    (∀ (tree : List (String × List Dependency)),
      (∀ p ∈ tree, p.2 ≠ ([] : List Dependency)) →
      unify_dependencies tree ≠ .error UnifyError.emptyList) := by
  constructor
  · intro tree
    induction tree with
    | nil => intro name h; cases h
    | cons p rest ih =>
      intro name h
      obtain ⟨n, deps⟩ := p
      rcases List.mem_cons.mp h with h1 | h2
      · rw [Prod.ext_iff] at h1
        obtain ⟨e1, e2⟩ := h1
        simp only at e1 e2
        subst e2
        rfl
      · cases h1 : unify_one deps with
        | error e => simp [unify_dependencies, h1, failed]
        | ok d =>
          have he := ih name h2
          cases h3 : unify_dependencies rest with
          | error e => simp [unify_dependencies, h1, h3, failed]
          | ok r => rw [h3] at he; cases he
  · intro tree
    induction tree with
    | nil => intro _ h; cases h
    | cons p rest ih =>
      intro hall
      obtain ⟨n, deps⟩ := p
      have hd : deps ≠ [] := hall (n, deps) (by simp)
      have h1 : unify_one deps ≠ .error UnifyError.emptyList := by
        cases hL : deps.getLast? with
        | none => exact absurd (by simpa using hL) hd
        | some acc =>
          simp [unify_one, hL]
          exact unify_fold_ne_emptyList _ acc
      cases h2 : unify_one deps with
      | error e =>
        cases e with
        | emptyList => exact absurd h2 h1
        | inheritedMerge => simp [unify_dependencies, h2]
      | ok d =>
        have ihr := ih (fun p hp => hall p (List.mem_cons_of_mem _ hp))
        cases h3 : unify_dependencies rest with
        | error e =>
          cases e with
          | emptyList => exact absurd h3 ihr
          | inheritedMerge => simp [unify_dependencies, h2, h3]
        | ok r => simp [unify_dependencies, h2, h3]

/-- C10 witness: a map sending a name to the empty list fails fatally, and
a map of non-empty lists never reports the empty-vector failure. -/
theorem unify_dependencies_empty_list_spec_witness :
    (("a", ([] : List Dependency)) ∈ [("a", ([] : List Dependency))]) ∧
    failed (unify_dependencies [("a", ([] : List Dependency))]) = true ∧
    unify_dependencies [("b", [Dependency.simple "1.0"])] ≠
      .error UnifyError.emptyList :=
  ⟨by decide,
    unify_dependencies_empty_list_spec.1 _ "a" (by decide),
    unify_dependencies_empty_list_spec.2 _ (by decide)⟩

/-- Helper: replacing the version sub-field leaves the value of every
other sub-field unchanged. -/
theorem set_version_frame :
    ∀ (fields : List (String × TomlItem)) (v k : String), k ≠ "version" →
      lookup_map (set_version fields v) k = lookup_map fields k := by
  intro fields v k hk
  induction fields with
  | nil => rfl
  | cons f rest ih =>
    obtain ⟨fk, fi⟩ := f
    by_cases h : fk = "version"
    · subst h
      simp only [set_version, if_pos rfl, lookup_map]
      rw [if_neg (Ne.symm hk), if_neg (Ne.symm hk)]
      exact ih
    · simp only [set_version, if_neg h, lookup_map]
      by_cases h2 : fk = k
      · rw [if_pos h2, if_pos h2]
      · rw [if_neg h2, if_neg h2]
        exact ih

/-- C8 counterexample: a bare-string entry whose name is unified to a
Detailed spec without a version is not replaced by any constraint string —
the patch is the fatal expect "version should exist" — refuting the claim
that a bare string entry with a unified name is always replaced wholesale
by the unified constraint string. -/
theorem patch_entry_missing_version_fatal :
    patch_entry [("foo", Dependency.detailed default_detail)] "foo"
      (TomlItem.str "1.0") = .error PatchError.missingVersion :=
  rfl

/-- C8 amended: when patching a subproject document, an entry whose name
is not in the unified table is unchanged; for a name in the table, a bare
string entry is replaced wholesale by the unified constraint string when
the unified spec carries one (a Simple constraint, or a Detailed present
version), is a fatal error when the unified spec is Detailed without a
version, and is unchanged when the unified spec is Inherited; a table-like
entry with a version sub-field has exactly that sub-field replaced under
the same three-way rule, every other sub-field keeping its value; a
table-like entry without a version sub-field is a silent no-op; and an
entry that is neither a string nor table-like is an unsupported-format
fatal error. -/
theorem patch_entry_spec (unified : List (String × Dependency)) (name : String) :
    (∀ it, lookup_map unified name = none → patch_entry unified name it = .ok it) ∧
    (∀ s v, lookup_map unified name = some (.simple v) →
      patch_entry unified name (.str s) = .ok (.str v)) ∧
    (∀ s d v, lookup_map unified name = some (.detailed d) → d.version = some v →
      patch_entry unified name (.str s) = .ok (.str v)) ∧
    (∀ s d, lookup_map unified name = some (.detailed d) → d.version = none →
      patch_entry unified name (.str s) = .error .missingVersion) ∧
    (∀ s, lookup_map unified name = some .inherited →
      patch_entry unified name (.str s) = .ok (.str s)) ∧
    (∀ fields v it, lookup_map unified name = some (.simple v) →
      lookup_map fields "version" = some it →
      patch_entry unified name (.table fields) = .ok (.table (set_version fields v))) ∧
    (∀ fields d v it, lookup_map unified name = some (.detailed d) → d.version = some v →
      lookup_map fields "version" = some it →
      patch_entry unified name (.table fields) = .ok (.table (set_version fields v))) ∧
    (∀ fields d it, lookup_map unified name = some (.detailed d) → d.version = none →
      lookup_map fields "version" = some it →
      patch_entry unified name (.table fields) = .error .missingVersion) ∧
    (∀ fields dep, lookup_map unified name = some dep →
      lookup_map fields "version" = none →
      patch_entry unified name (.table fields) = .ok (.table fields)) ∧
    (∀ dep, lookup_map unified name = some dep →
      patch_entry unified name .other = .error .unsupportedFormat) ∧
    (∀ fields v k, k ≠ "version" →
      lookup_map (set_version fields v) k = lookup_map fields k) := by
  refine ⟨?_, ?_, ?_, ?_, ?_, ?_, ?_, ?_, ?_, ?_, set_version_frame⟩
  · intro it h; cases it <;> simp [patch_entry, h]
  · intro s v h; simp [patch_entry, h]
  · intro s d v h hv; simp [patch_entry, h, hv]
  · intro s d h hv; simp [patch_entry, h, hv]
  · intro s h; simp [patch_entry, h]
  · intro fields v it h hv; simp [patch_entry, h, hv]
  · intro fields d v it h hd hv; simp [patch_entry, h, hd, hv]
  · intro fields d it h hd hv; simp [patch_entry, h, hd, hv]
  · intro fields dep h hv
    cases dep <;> simp [patch_entry, h, hv]
  · intro dep h; simp [patch_entry, h]

/-- C8 witness: patching the structured entry with sub-fields version "1.0"
and features, against a unified Detailed spec with version "1.0, 2.0",
replaces only the version sub-field and leaves the features sub-field's
value unchanged. -/
theorem patch_entry_spec_witness :
    ({ default_detail with version := some "1.0, 2.0" } : DependencyDetail).version =
      some "1.0, 2.0" ∧
    patch_entry [("lib", Dependency.detailed { default_detail with version := some "1.0, 2.0" })]
      "lib" (TomlItem.table [("version", TomlItem.str "1.0"), ("features", TomlItem.other)]) =
      .ok (TomlItem.table
        [("version", TomlItem.str "1.0, 2.0"), ("features", TomlItem.other)]) ∧
    lookup_map (set_version
        [("version", TomlItem.str "1.0"), ("features", TomlItem.other)] "1.0, 2.0")
      "features" =
      lookup_map [("version", TomlItem.str "1.0"), ("features", TomlItem.other)] "features" := by
  obtain ⟨-, -, -, -, -, -, h7, -, -, -, h11⟩ :=
    patch_entry_spec
      [("lib", Dependency.detailed { default_detail with version := some "1.0, 2.0" })] "lib"
  exact ⟨rfl, h7 _ _ "1.0, 2.0" (TomlItem.str "1.0") rfl rfl rfl,
    h11 _ "1.0, 2.0" "features" (by decide)⟩

/-- Helper: a successful unifier run produces exactly the keys of its
input map, in order. -/
theorem unify_keys :
    ∀ (tree : List (String × List Dependency)) (table : List (String × Dependency)),
      unify_dependencies tree = .ok table → keysOf table = keysOf tree := by
  intro tree
  induction tree with
  | nil =>
    intro table h
    simp only [unify_dependencies, Except.ok.injEq] at h
    subst h
    rfl
  | cons p rest ih =>
    intro table h
    obtain ⟨name, deps⟩ := p
    cases h1 : unify_one deps with
    | error e => simp [unify_dependencies, h1] at h
    | ok d =>
      cases h2 : unify_dependencies rest with
      | error e => simp [unify_dependencies, h1, h2] at h
      | ok r =>
        simp only [unify_dependencies, h1, h2, Except.ok.injEq] at h
        subst h
        simp only [keysOf, List.map_cons]
        rw [← keysOf, ← keysOf, ih r h2]

/-- Helper: adding a dependency to the accumulation map adds its name to
the keys exactly when the name is new. -/
theorem add_dep_keys (m : List (String × List Dependency)) (n : String)
    (d : Dependency) :
    keysOf (add_dep m n d) =
      if n ∈ keysOf m then keysOf m else keysOf m ++ [n] := by
  induction m with
  | nil => simp [add_dep, keysOf]
  | cons p rest ih =>
    obtain ⟨k, ds⟩ := p
    by_cases h : k = n
    · subst h
      simp [add_dep, keysOf]
    · simp only [add_dep, if_neg h, keysOf, List.map_cons] at *
      simp only [List.mem_cons]
      by_cases h2 : n ∈ keysOf rest
      · rw [keysOf] at h2
        simp [h2, ih, Ne.symm h]
      · rw [keysOf] at h2
        simp [h2, ih, Ne.symm h]

/-- Helper: membership in the keys after add_dep. -/
theorem mem_add_dep_keys (m : List (String × List Dependency)) (n x : String)
    (d : Dependency) :
    x ∈ keysOf (add_dep m n d) ↔ x ∈ keysOf m ∨ x = n := by
  rw [add_dep_keys]
  by_cases h : n ∈ keysOf m
  · simp only [if_pos h]
    constructor
    · exact fun hx => Or.inl hx
    · rintro (hx | hx)
      · exact hx
      · subst hx; exact h
  · simp [if_neg h]

/-- Helper: add_dep keeps the keys duplicate-free. -/
theorem add_dep_keys_nodup (m : List (String × List Dependency)) (n : String)
    (d : Dependency) (h : (keysOf m).Nodup) : (keysOf (add_dep m n d)).Nodup := by
  rw [add_dep_keys]
  by_cases hm : n ∈ keysOf m
  · simpa [if_pos hm] using h
  · rw [if_neg hm]
    rw [List.nodup_append]
    refine ⟨h, List.nodup_singleton n, ?_⟩
    intro a ha hb
    rw [List.mem_singleton] at hb
    subst hb
    exact hm ha

/-- Helper: every key collected from one member either was already in the
accumulator or is a member name absent from the root map. -/
theorem collect_member_keys_sub :
    ∀ (member : List (String × Dependency)) (root : List String)
      (acc : List (String × List Dependency)) (x : String),
      x ∈ keysOf (collect_member root acc member) →
      x ∈ keysOf acc ∨ (x ∉ root ∧ x ∈ keysOf member) := by
  intro member
  induction member with
  | nil => intro root acc x h; exact Or.inl h
  | cons nd rest ih =>
    intro root acc x h
    have hstep : collect_member root acc (nd :: rest) =
        collect_member root (if nd.1 ∈ root then acc else add_dep acc nd.1 nd.2) rest := rfl
    rw [hstep] at h
    rcases ih root _ x h with hacc | ⟨hr, hm⟩
    · by_cases hroot : nd.1 ∈ root
      · rw [if_pos hroot] at hacc
        exact Or.inl hacc
      · rw [if_neg hroot] at hacc
        rcases (mem_add_dep_keys acc nd.1 x nd.2).mp hacc with h1 | h1
        · exact Or.inl h1
        · subst h1
          exact Or.inr ⟨hroot, by simp [keysOf]⟩
    · exact Or.inr ⟨hr, by simp [keysOf] at hm ⊢; exact Or.inr hm⟩

/-- Helper: collecting one member keeps the accumulated keys
duplicate-free. -/
theorem collect_member_keys_nodup :
    ∀ (member : List (String × Dependency)) (root : List String)
      (acc : List (String × List Dependency)),
      (keysOf acc).Nodup → (keysOf (collect_member root acc member)).Nodup := by
  intro member
  induction member with
  | nil => intro root acc h; exact h
  | cons nd rest ih =>
    intro root acc h
    show (keysOf (collect_member root
      (if nd.1 ∈ root then acc else add_dep acc nd.1 nd.2) rest)).Nodup
    apply ih
    by_cases hroot : nd.1 ∈ root
    · rwa [if_pos hroot]
    · rw [if_neg hroot]
      exact add_dep_keys_nodup _ _ _ h

/-- Helper: every key of the collection fold over all members either was
in the initial accumulator or is a name declared by some member and absent
from the root map. -/
theorem collect_keys_spec :
    ∀ (members : List (List (String × Dependency))) (root : List String)
      (acc : List (String × List Dependency)) (x : String),
      x ∈ keysOf (members.foldl (collect_member root) acc) →
      x ∈ keysOf acc ∨ (x ∉ root ∧ x ∈ (members.map keysOf).flatten) := by
  intro members
  induction members with
  | nil => intro root acc x h; exact Or.inl h
  | cons member rest ih =>
    intro root acc x h
    rcases ih root (collect_member root acc member) x h with hacc | ⟨hr, hm⟩
    · rcases collect_member_keys_sub member root acc x hacc with h1 | ⟨hr, hm⟩
      · exact Or.inl h1
      · exact Or.inr ⟨hr, List.mem_flatten.mpr ⟨keysOf member, by simp, hm⟩⟩
    · obtain ⟨l, hl, hx⟩ := List.mem_flatten.mp hm
      exact Or.inr ⟨hr, List.mem_flatten.mpr ⟨l, by simp at hl ⊢; exact Or.inr hl, hx⟩⟩

/-- Helper: the collection fold keeps keys duplicate-free. -/
theorem collect_keys_nodup :
    ∀ (members : List (List (String × Dependency))) (root : List String)
      (acc : List (String × List Dependency)),
      (keysOf acc).Nodup →
      (keysOf (members.foldl (collect_member root) acc)).Nodup := by
  intro members
  induction members with
  | nil => intro root acc h; exact h
  | cons member rest ih =>
    intro root acc h
    exact ih root _ (collect_member_keys_nodup member root acc h)

/-- Helper: a name outside a map's keys looks up to nothing. -/
theorem lookup_map_eq_none {α : Type} :
    ∀ (l : List (String × α)) (x : String), x ∉ keysOf l → lookup_map l x = none := by
  intro l
  induction l with
  | nil => intro x h; rfl
  | cons p rest ih =>
    intro x h
    obtain ⟨k, v⟩ := p
    simp only [keysOf, List.map_cons, List.mem_cons, not_or] at h
    obtain ⟨h1, h2⟩ := h
    rw [lookup_map, if_neg (Ne.symm h1)]
    exact ih x h2

/-- C9: a unified table built from the collected subproject dependencies
has exactly one entry per name of the unifier's input map (the key lists
coincide and are duplicate-free); every name in the table is declared by
at least one subproject and is absent from the root's shared-dependency
map; and a name present in the root map is never unified (it is absent
from the table) and never patched (patching leaves its entries unchanged). -/
theorem unified_table_keys_spec (root : List String)
    (members : List (List (String × Dependency)))
    (table : List (String × Dependency)) (name : String) (it : TomlItem)
    (h : unify_dependencies (collect_new_dependencies root members) = .ok table) :
    keysOf table = keysOf (collect_new_dependencies root members) ∧
    (keysOf table).Nodup ∧
    (name ∈ keysOf table → name ∉ root ∧ name ∈ (members.map keysOf).flatten) ∧
    (name ∈ root → lookup_map table name = none ∧
      patch_entry table name it = .ok it) := by
  have hk := unify_keys _ _ h
  have hnd : (keysOf (collect_new_dependencies root members)).Nodup :=
    collect_keys_nodup members root [] (by simp [keysOf])
  refine ⟨hk, hk ▸ hnd, ?_, ?_⟩
  · intro hmem
    rw [hk] at hmem
    rcases collect_keys_spec members root [] name hmem with h1 | h2
    · simp [keysOf] at h1
    · exact h2
  · intro hroot
    have hnone : lookup_map table name = none := by
      apply lookup_map_eq_none
      intro hmem
      rw [hk] at hmem
      rcases collect_keys_spec members root [] name hmem with h1 | ⟨h2, _⟩
      · simp [keysOf] at h1
      · exact h2 hroot
    exact ⟨hnone, by cases it <;> simp [patch_entry, hnone]⟩

/-- C9 witness: with root map key "a" and one member declaring "a" and
"b", the unified table holds exactly "b", which is declared by the member
and absent from the root; the root name "a" is absent from the table and
its entries are left unchanged by patching. -/
theorem unified_table_keys_spec_witness :
    keysOf [("b", Dependency.simple "1.0")] =
      keysOf (collect_new_dependencies ["a"]
        [[("a", Dependency.simple "0.1"), ("b", Dependency.simple "1.0")]]) ∧
    ("b" ∉ ["a"] ∧
      "b" ∈ (([[("a", Dependency.simple "0.1"),
        ("b", Dependency.simple "1.0")]].map keysOf)).flatten) ∧
    (lookup_map [("b", Dependency.simple "1.0")] "a" = none ∧
      patch_entry [("b", Dependency.simple "1.0")] "a" (TomlItem.str "0.1") =
        .ok (TomlItem.str "0.1")) := by
  have h1 := unified_table_keys_spec ["a"]
    [[("a", Dependency.simple "0.1"), ("b", Dependency.simple "1.0")]]
    [("b", Dependency.simple "1.0")] "b" (TomlItem.str "0.1") rfl
  have h2 := unified_table_keys_spec ["a"]
    [[("a", Dependency.simple "0.1"), ("b", Dependency.simple "1.0")]]
    [("b", Dependency.simple "1.0")] "a" (TomlItem.str "0.1") rfl
  exact ⟨h1.1, h1.2.2.1 (by decide), h2.2.2.2 (by decide)⟩

/-- C2: the run is not atomic across files. The member write loop writes
each member's patched document back to disk at the end of that member's
loop iteration, before later members are read or parsed; on a concrete
two-member tree whose second member fails to parse, the run aborts with
the first member already rewritten on disk (its lib entry changed from
"1.0" to the merged "1.0, 2.0"), contradicting the claim that no file is
overwritten before every transformation has been computed and validated. -/
theorem consolidate_write_order_not_atomic :
    process_members unifiedB fsBefore ["m1", "m2"] =
      (fsAfter, some RunError.parseFail) ∧
    lookup_map fsBefore "m1" = some (FileContent.doc [("b", TomlItem.str "1.0")]) ∧
    lookup_map fsAfter "m1" = some (FileContent.doc [("b", TomlItem.str "1.0, 2.0")]) ∧
    ("1.0, 2.0" : String) ≠ "1.0" :=
  ⟨rfl, rfl, rfl, by decide⟩
